import Mathlib

/-!
Shallow embedding of the real-time market & order state synchronization
layer of the cryptoTrade browser client.

Embedded sources:
* `WebSocketService` (socket.io wrapper with a subscription registry keyed
  by the string `type_symbol`),
* the `marketSlice` Redux reducer (tickers, order book, bounded trade tape),
* the `tradingSlice` Redux reducer (open orders / order history).

JavaScript data is modelled as follows: a `Set<string>` kept in insertion
order becomes a duplicate-free `List String`; a plain object used as a map
becomes a function `String → Option _`; arrays become lists; `number`
becomes `Int`; nullable strings become `Option String`.
-/

namespace CryptoTrade

/-! ## WebSocketService (src/unnamed/part_000) -/

/-- A protocol channel `{ type, symbol }`. -/
structure Channel where
  type : String
  symbol : String
deriving DecidableEq, Repr

/-- Registry key `` `${channel.type}_${channel.symbol}` ``. -/
def channelKey (c : Channel) : String := c.type ++ "_" ++ c.symbol

/-- JavaScript `String.prototype.split('_')` over the character list:
every underscore starts a new fragment, and `"".split('_')` is `[""]`. -/
def splitChars : List Char → List (List Char)
  | [] => [[]]
  | c :: cs =>
    let r := splitChars cs
    if c = '_' then [] :: r
    else
      match r with
      | [] => [[c]]
      | h :: t => (c :: h) :: t

/-- Decoding used by `resubscribe`:
`const [type, symbol] = key.split('_')` takes the first two fragments. -/
def splitKey (k : String) : Channel :=
  let parts := (splitChars k.data).map List.asString
  { type := parts.headD "", symbol := (parts.drop 1).headD "" }

/-- Messages emitted on the socket (`socket.emit`). -/
inductive OutMsg where
  | authenticate (token : String)
  | subscribeMsg (channels : List Channel)
  | unsubscribeMsg (channels : List Channel)
deriving DecidableEq, Repr

/-- `Set.add`: a JS `Set` keeps insertion order and ignores re-adds. -/
def setAdd (s : List String) (k : String) : List String :=
  if k ∈ s then s else s ++ [k]

/-- Mutable service state: `socket` (`none` = no socket object; `some b` =
socket object whose `connected` flag is `b`), the subscribed-channel key
set, and the reconnect-attempt counter. -/
structure WSState where
  socketConnected : Option Bool
  subscribedChannels : List String
  reconnectAttempts : Nat
deriving DecidableEq, Repr

/-- Abbreviation for a service state with attempt counter 0. -/
def wsState (sc : Option Bool) (subs : List String) : WSState :=
  { socketConnected := sc, subscribedChannels := subs, reconnectAttempts := 0 }

/-- Abbreviation for a channel record. -/
def chan (t s : String) : Channel := { type := t, symbol := s }

/-- `subscribe(channels)`: early return when `this.socket` is null;
otherwise add every key to the set and emit one `subscribe` message. -/
def subscribe (st : WSState) (channels : List Channel) : WSState × List OutMsg :=
  match st.socketConnected with
  | none => (st, [])
  | some _ =>
    let subs := channels.foldl (fun acc c => setAdd acc (channelKey c)) st.subscribedChannels
    ({ st with subscribedChannels := subs }, [OutMsg.subscribeMsg channels])

/-- `unsubscribe(channels)`: early return when `this.socket` is null;
otherwise delete every key from the set and emit one `unsubscribe` message. -/
def unsubscribe (st : WSState) (channels : List Channel) : WSState × List OutMsg :=
  match st.socketConnected with
  | none => (st, [])
  | some _ =>
    let subs := channels.foldl (fun acc c => acc.erase (channelKey c)) st.subscribedChannels
    ({ st with subscribedChannels := subs }, [OutMsg.unsubscribeMsg channels])

/-- `resubscribe()`: no-op without a socket or with an empty set; otherwise
decode every stored key with `splitKey` and emit one `subscribe` message. -/
def resubscribe (st : WSState) : List OutMsg :=
  match st.socketConnected with
  | none => []
  | some _ =>
    if st.subscribedChannels.length = 0 then []
    else [OutMsg.subscribeMsg (st.subscribedChannels.map splitKey)]

/-- The `'connect'` event handler: reset the attempt counter, emit
`authenticate` when a token is stored, then `resubscribe`. -/
def onConnect (st : WSState) (token : Option String) : WSState × List OutMsg :=
  let st1 : WSState :=
    { st with socketConnected := some true, reconnectAttempts := 0 }
  let auth := match token with
    | some t => [OutMsg.authenticate t]
    | none => []
  (st1, auth ++ resubscribe st1)

/-- The `'disconnect'` event handler only logs; the socket object survives
with `connected = false`. -/
def onDisconnect (st : WSState) : WSState :=
  { st with socketConnected := some false }

/-- `subscribeToMarket(symbol)`: subscribe the three channel kinds. -/
def subscribeToMarket (st : WSState) (symbol : String) : WSState × List OutMsg :=
  subscribe st
    [ { type := "ticker", symbol := symbol },
      { type := "orderbook", symbol := symbol },
      { type := "trades", symbol := symbol } ]

/-! ## marketSlice (src/frontend/src/store/slices/marketSlice.ts) -/

structure Ticker where
  symbol : String
  last_price : String
  price_change_24h : String
  high_24h : String
  low_24h : String
  volume_24h : String
deriving DecidableEq, Repr

structure TradingPair where
  id : Int
  symbol : String
  base_currency : String
  quote_currency : String
  is_active : Bool
  min_order_size : String
  max_order_size : String
  last_price : String
deriving DecidableEq, Repr

structure PriceLevel where
  price : String
  amount : String
deriving DecidableEq, Repr

structure OrderBook where
  bids : List PriceLevel
  asks : List PriceLevel
deriving DecidableEq, Repr

structure RecentTrade where
  id : Int
  price : String
  amount : String
  timestamp : String
deriving DecidableEq, Repr

structure MarketState where
  tickers : String → Option Ticker
  tradingPairs : List TradingPair
  currentPair : Option TradingPair
  orderBook : OrderBook
  recentTrades : List RecentTrade
  loading : Bool
  error : Option String

def initialMarketState : MarketState :=
  { tickers := fun _ => none
    tradingPairs := []
    currentPair := none
    orderBook := { bids := [], asks := [] }
    recentTrades := []
    loading := false
    error := none }

/-- Reducer `updateTicker`: `state.tickers[action.payload.symbol] = action.payload`. -/
def updateTicker (s : MarketState) (payload : Ticker) : MarketState :=
  { s with tickers := fun sym =>
      if sym = payload.symbol then some payload else s.tickers sym }

/-- Reducer `updateOrderBook`: `state.orderBook = action.payload`. -/
def updateOrderBook (s : MarketState) (payload : OrderBook) : MarketState :=
  { s with orderBook := payload }

/-- Reducer `addRecentTrade`: `unshift` the trade, then `pop` the oldest
entry when the tape exceeds 100. -/
def addRecentTrade (s : MarketState) (payload : RecentTrade) : MarketState :=
  let trades := payload :: s.recentTrades
  { s with recentTrades := if trades.length > 100 then trades.dropLast else trades }

/-- Reducer `setCurrentPair`: look the symbol up among the trading pairs. -/
def setCurrentPair (s : MarketState) (symbol : String) : MarketState :=
  { s with currentPair := s.tradingPairs.find? (fun p => p.symbol = symbol) }

/-- `fetchTickers.fulfilled`: write every fetched ticker into the map. -/
def fetchTickersFulfilled (s : MarketState) (payload : List Ticker) : MarketState :=
  payload.foldl updateTicker s

/-- `fetchTradingPairs.fulfilled`: replace the pair list. -/
def fetchTradingPairsFulfilled (s : MarketState) (payload : List TradingPair) : MarketState :=
  { s with tradingPairs := payload }

/-- `fetchOrderBook.fulfilled`: `bids: payload.bids || []`, same for asks. -/
def fetchOrderBookFulfilled (s : MarketState)
    (bids asks : Option (List PriceLevel)) : MarketState :=
  { s with orderBook := { bids := bids.getD [], asks := asks.getD [] } }

/-- `fetchRecentTrades.fulfilled`: `state.recentTrades = action.payload`
(verbatim, no trimming). -/
def fetchRecentTradesFulfilled (s : MarketState) (payload : List RecentTrade) : MarketState :=
  { s with recentTrades := payload }

/-- Every action the market slice can receive, including the `rejected`
thunk actions, for which the `extraReducers` builder registers no case. -/
inductive MarketAction where
  | setCurrentPair (symbol : String)
  | updateTicker (t : Ticker)
  | updateOrderBook (b : OrderBook)
  | addRecentTrade (t : RecentTrade)
  | fetchTickersFulfilled (ts : List Ticker)
  | fetchTickersRejected (err : Option String)
  | fetchTradingPairsFulfilled (ps : List TradingPair)
  | fetchTradingPairsRejected (err : Option String)
  | fetchOrderBookFulfilled (bids asks : Option (List PriceLevel))
  | fetchOrderBookRejected (err : Option String)
  | fetchRecentTradesFulfilled (ts : List RecentTrade)
  | fetchRecentTradesRejected (err : Option String)

/-- The whole market reducer. An action with no registered case (all the
`rejected` actions here) falls through `createSlice`'s default and returns
the state unchanged. -/
def marketReducer (s : MarketState) : MarketAction → MarketState
  | .setCurrentPair sym => setCurrentPair s sym
  | .updateTicker t => updateTicker s t
  | .updateOrderBook b => updateOrderBook s b
  | .addRecentTrade t => addRecentTrade s t
  | .fetchTickersFulfilled ts => fetchTickersFulfilled s ts
  | .fetchTickersRejected _ => s
  | .fetchTradingPairsFulfilled ps => fetchTradingPairsFulfilled s ps
  | .fetchTradingPairsRejected _ => s
  | .fetchOrderBookFulfilled bids asks => fetchOrderBookFulfilled s bids asks
  | .fetchOrderBookRejected _ => s
  | .fetchRecentTradesFulfilled ts => fetchRecentTradesFulfilled s ts
  | .fetchRecentTradesRejected _ => s

/-! ## tradingSlice (embedded in src/frontend/src/pages/admin/Dashboard.tsx) -/

structure Order where
  id : Int
  trading_pair : String
  order_type : String
  side : String
  status : String
  price : Option String
  amount : String
  filled_amount : String
  remaining_amount : String
  created_at : String
deriving DecidableEq, Repr

structure TradingState where
  openOrders : List Order
  orderHistory : List Order
  loading : Bool
  error : Option String
deriving DecidableEq, Repr

def initialTradingState : TradingState :=
  { openOrders := [], orderHistory := [], loading := false, error := none }

/-- `Array.prototype.findIndex` on `o => o.id === n`, as an `Option Nat`
(the JS code only compares the result with `>= 0`). -/
def findIdxById : List Order → Int → Option Nat
  | [], _ => none
  | x :: xs, n => if x.id = n then some 0 else (findIdxById xs n).map (· + 1)

/-- Reducer `updateOrder`: find the order among the open orders; a terminal
status (`cancelled`/`filled`) splices it out (when present) and unshifts the
payload onto the history; a non-terminal status overwrites in place when
present and otherwise does nothing. -/
def updateOrder (s : TradingState) (payload : Order) : TradingState :=
  let index := findIdxById s.openOrders payload.id
  if payload.status = "cancelled" ∨ payload.status = "filled" then
    let opens := match index with
      | some i => s.openOrders.eraseIdx i
      | none => s.openOrders
    { s with openOrders := opens, orderHistory := payload :: s.orderHistory }
  else
    match index with
    | some i => { s with openOrders := s.openOrders.set i payload }
    | none => s

/-- Reducer `addOrder`: unshift onto the open orders when the status is
`open` or `partially_filled`, otherwise do nothing. -/
def addOrder (s : TradingState) (payload : Order) : TradingState :=
  if payload.status = "open" ∨ payload.status = "partially_filled" then
    { s with openOrders := payload :: s.openOrders }
  else s

/-- `createOrder.fulfilled`: same body as `addOrder`. -/
def createOrderFulfilled (s : TradingState) (payload : Order) : TradingState :=
  if payload.status = "open" ∨ payload.status = "partially_filled" then
    { s with openOrders := payload :: s.openOrders }
  else s

/-- `cancelOrder.fulfilled`: filter the cancelled id out of the open orders
(the spec's `removeCancelled`). -/
def cancelOrderFulfilled (s : TradingState) (payload : Order) : TradingState :=
  { s with openOrders := s.openOrders.filter (fun o => o.id ≠ payload.id) }

/-- `fetchOpenOrders.pending`. -/
def fetchOpenOrdersPending (s : TradingState) : TradingState :=
  { s with loading := true }

/-- `fetchOpenOrders.fulfilled`. -/
def fetchOpenOrdersFulfilled (s : TradingState) (payload : List Order) : TradingState :=
  { s with loading := false, openOrders := payload }

/-- `fetchOpenOrders.rejected`. -/
def fetchOpenOrdersRejected (s : TradingState) (err : Option String) : TradingState :=
  { s with loading := false, error := err }

/-- Every action the trading slice can receive. `createOrder.rejected` and
`cancelOrder.rejected` have no registered case in the builder. -/
inductive TradingAction where
  | clearError
  | updateOrder (o : Order)
  | addOrder (o : Order)
  | fetchOpenOrdersPending
  | fetchOpenOrdersFulfilled (os : List Order)
  | fetchOpenOrdersRejected (err : Option String)
  | createOrderFulfilled (o : Order)
  | createOrderRejected (err : Option String)
  | cancelOrderFulfilled (o : Order)
  | cancelOrderRejected (err : Option String)

/-- The whole trading reducer; unregistered actions return the state
unchanged (`createSlice` default case). -/
def tradingReducer (s : TradingState) : TradingAction → TradingState
  | .clearError => { s with error := none }
  | .updateOrder o => updateOrder s o
  | .addOrder o => addOrder s o
  | .fetchOpenOrdersPending => fetchOpenOrdersPending s
  | .fetchOpenOrdersFulfilled os => fetchOpenOrdersFulfilled s os
  | .fetchOpenOrdersRejected e => fetchOpenOrdersRejected s e
  | .createOrderFulfilled o => createOrderFulfilled s o
  | .createOrderRejected _ => s
  | .cancelOrderFulfilled o => cancelOrderFulfilled s o
  | .cancelOrderRejected _ => s

/-- The id column of an order list. -/
def idsOf (l : List Order) : List Int := l.map (fun o => o.id)

/-- One trading-store operation, as the claims quantify over sequences:
`add` is `recordNewOrder` (`addOrder` / `createOrder.fulfilled`), `update`
is `applyOrderEvent` (`updateOrder`). -/
inductive TradingOp where
  | add (o : Order)
  | update (o : Order)
deriving DecidableEq, Repr

def applyOp (s : TradingState) : TradingOp → TradingState
  | .add o => addOrder s o
  | .update o => updateOrder s o

def runOps (s : TradingState) (ops : List TradingOp) : TradingState :=
  ops.foldl applyOp s

/-- All intermediate states of a run, the start state included. -/
def statesOf : TradingState → List TradingOp → List TradingState
  | s, [] => [s]
  | s, op :: ops => s :: statesOf (applyOp s op) ops

/-- No order id is in both containers at once. -/
def exclusive (s : TradingState) : Prop :=
  ∀ n : Int, ¬(n ∈ idsOf s.openOrders ∧ n ∈ idsOf s.orderHistory)

/-- Inductive invariant: open-order ids are duplicate-free and disjoint
from the history ids. -/
def TradingInv (s : TradingState) : Prop :=
  (idsOf s.openOrders).Nodup ∧ ∀ n ∈ idsOf s.openOrders, n ∉ idsOf s.orderHistory

/-- A run in which every `add` carries an id fresh to both containers
(the condition under which exclusivity actually holds). -/
inductive FreshRun : TradingState → List TradingOp → Prop where
  | nil (s : TradingState) : FreshRun s []
  | add (s : TradingState) (o : Order) (ops : List TradingOp)
      (h1 : o.id ∉ idsOf s.openOrders) (h2 : o.id ∉ idsOf s.orderHistory)
      (h : FreshRun (applyOp s (TradingOp.add o)) ops) :
      FreshRun s (TradingOp.add o :: ops)
  | update (s : TradingState) (o : Order) (ops : List TradingOp)
      (h : FreshRun (applyOp s (TradingOp.update o)) ops) :
      FreshRun s (TradingOp.update o :: ops)

/-- A sample order used in witnesses and counterexamples. -/
def ord (n : Int) (st : String) : Order :=
  { id := n, trading_pair := "BTC_USDT", order_type := "limit", side := "buy",
    status := st, price := some "100", amount := "1.0", filled_amount := "0",
    remaining_amount := "1.0", created_at := "2024-01-01" }

/-- A sequence of trades used in scenario theorems: trade `n` is the n-th
event fed. -/
def mkTrade (n : Nat) : RecentTrade :=
  { id := n, price := toString n, amount := "1.0", timestamp := toString n }

/-- A sample ticker record used in witnesses. -/
def tick (sym p : String) : Ticker :=
  { symbol := sym, last_price := p, price_change_24h := "0",
    high_24h := p, low_24h := p, volume_24h := "1" }

/-! ## Theorems -/

/-! ### Helper lemmas about the trading containers -/

theorem idsOf_cons (x : Order) (xs : List Order) :
    idsOf (x :: xs) = x.id :: idsOf xs := rfl

theorem idsOf_append (l1 l2 : List Order) :
    idsOf (l1 ++ l2) = idsOf l1 ++ idsOf l2 := by
  simp [idsOf]

theorem findIdxById_eq_none {l : List Order} {n : Int} :
    findIdxById l n = none ↔ n ∉ idsOf l := by
  induction l with
  | nil => simp [findIdxById, idsOf]
  | cons x xs ih =>
    simp only [findIdxById, idsOf_cons, List.mem_cons]
    by_cases hx : x.id = n
    · simp [hx]
    · simp [hx, Option.map_eq_none', ih, show n ≠ x.id from fun hc => hx hc.symm]

theorem findIdxById_some_decomp {l : List Order} {n : Int} {i : Nat}
    (h : findIdxById l n = some i) :
    ∃ l1 x l2, l = l1 ++ x :: l2 ∧ l1.length = i ∧ x.id = n ∧ n ∉ idsOf l1 := by
  induction l generalizing i with
  | nil => simp [findIdxById] at h
  | cons x xs ih =>
    by_cases hx : x.id = n
    · have hi : i = 0 := by simp [findIdxById, hx] at h; omega
      exact ⟨[], x, xs, rfl, by simp [hi], hx, by simp [idsOf]⟩
    · simp only [findIdxById, hx, if_false, Option.map_eq_some'] at h
      obtain ⟨j, hj, hji⟩ := h
      obtain ⟨l1, y, l2, hl, hlen, hy, hn⟩ := ih hj
      refine ⟨x :: l1, y, l2, by simp [hl], by simp [hlen, ← hji], hy, ?_⟩
      rw [idsOf_cons]
      simp only [List.mem_cons, not_or]
      exact ⟨fun hc => hx hc.symm, hn⟩

theorem findIdxById_append {l1 l2 : List Order} {x : Order} {n : Int}
    (hx : x.id = n) (h1 : n ∉ idsOf l1) :
    findIdxById (l1 ++ x :: l2) n = some l1.length := by
  induction l1 with
  | nil => simp [findIdxById, hx]
  | cons y ys ih =>
    rw [idsOf_cons] at h1
    simp only [List.mem_cons, not_or] at h1
    simp [findIdxById, show y.id ≠ n from fun hc => h1.1 hc.symm, ih h1.2]

theorem eraseIdx_append_len (l1 l2 : List Order) (x : Order) :
    (l1 ++ x :: l2).eraseIdx l1.length = l1 ++ l2 := by
  induction l1 with
  | nil => simp [List.eraseIdx]
  | cons y ys ih => simp [List.eraseIdx, ih]

theorem set_append_len (l1 l2 : List Order) (x p : Order) :
    (l1 ++ x :: l2).set l1.length p = l1 ++ p :: l2 := by
  induction l1 with
  | nil => simp
  | cons y ys ih => simp [List.set, ih]

/-! ## Sequences of trading-store operations -/

theorem TradingInv.excl {s : TradingState} (h : TradingInv s) : exclusive s :=
  fun n hc => h.2 n hc.1 hc.2

theorem tradingInv_initial : TradingInv initialTradingState := by
  constructor <;> simp [initialTradingState, idsOf]

/-! Branch-by-branch evaluation of `updateOrder`. -/

theorem updateOrder_terminal_absent {opens hist : List Order} {load : Bool}
    {err : Option String} {o : Order}
    (hterm : o.status = "cancelled" ∨ o.status = "filled")
    (hidx : findIdxById opens o.id = none) :
    updateOrder ⟨opens, hist, load, err⟩ o = ⟨opens, o :: hist, load, err⟩ := by
  simp [updateOrder, hidx, hterm]

theorem updateOrder_terminal_found {l1 l2 hist : List Order} {x : Order} {load : Bool}
    {err : Option String} {o : Order}
    (hterm : o.status = "cancelled" ∨ o.status = "filled")
    (hidx : findIdxById (l1 ++ x :: l2) o.id = some l1.length) :
    updateOrder ⟨l1 ++ x :: l2, hist, load, err⟩ o = ⟨l1 ++ l2, o :: hist, load, err⟩ := by
  simp [updateOrder, hidx, hterm, eraseIdx_append_len]

theorem updateOrder_open_absent {opens hist : List Order} {load : Bool}
    {err : Option String} {o : Order}
    (hterm : ¬(o.status = "cancelled" ∨ o.status = "filled"))
    (hidx : findIdxById opens o.id = none) :
    updateOrder ⟨opens, hist, load, err⟩ o = ⟨opens, hist, load, err⟩ := by
  simp [updateOrder, hidx, hterm]

theorem updateOrder_open_found {l1 l2 hist : List Order} {x : Order} {load : Bool}
    {err : Option String} {o : Order}
    (hterm : ¬(o.status = "cancelled" ∨ o.status = "filled"))
    (hidx : findIdxById (l1 ++ x :: l2) o.id = some l1.length) :
    updateOrder ⟨l1 ++ x :: l2, hist, load, err⟩ o = ⟨l1 ++ o :: l2, hist, load, err⟩ := by
  simp [updateOrder, hidx, hterm, set_append_len]

theorem tradingInv_updateOrder {s : TradingState} (h : TradingInv s) (o : Order) :
    TradingInv (updateOrder s o) := by
  obtain ⟨opens, hist, load, err⟩ := s
  obtain ⟨hnd, hdisj⟩ := h
  have hnd' : (idsOf opens).Nodup := hnd
  have hdisj' : ∀ n ∈ idsOf opens, n ∉ idsOf hist := hdisj
  by_cases hterm : o.status = "cancelled" ∨ o.status = "filled"
  · cases hidx : findIdxById opens o.id with
    | none =>
      rw [updateOrder_terminal_absent hterm hidx]
      have hno : o.id ∉ idsOf opens := findIdxById_eq_none.mp hidx
      refine ⟨hnd', fun n hn => ?_⟩
      show n ∉ idsOf (o :: hist)
      rw [idsOf_cons]
      simp only [List.mem_cons, not_or]
      exact ⟨fun hc => hno (hc ▸ hn), hdisj' n hn⟩
    | some i =>
      obtain ⟨l1, x, l2, hl, hlen, hx, hnl1⟩ := findIdxById_some_decomp hidx
      subst hl
      subst hlen
      rw [updateOrder_terminal_found hterm hidx]
      rw [idsOf_append, idsOf_cons] at hnd' hdisj'
      obtain ⟨nd1, nd2c, ndisj⟩ := List.nodup_append.mp hnd'
      obtain ⟨hx2, nd2⟩ := List.nodup_cons.mp nd2c
      constructor
      · show (idsOf (l1 ++ l2)).Nodup
        rw [idsOf_append, List.nodup_append]
        exact ⟨nd1, nd2, fun a ha hb => ndisj ha (List.mem_cons_of_mem _ hb)⟩
      · intro n hn
        show n ∉ idsOf (o :: hist)
        rw [idsOf_append] at hn
        rw [idsOf_cons]
        simp only [List.mem_cons, not_or]
        rcases List.mem_append.mp hn with h1 | h2
        · exact ⟨fun hc => hnl1 (hc ▸ h1), hdisj' n (List.mem_append.mpr (Or.inl h1))⟩
        · exact ⟨fun hc => hx2 (hx ▸ hc ▸ h2),
            hdisj' n (List.mem_append.mpr (Or.inr (List.mem_cons_of_mem _ h2)))⟩
  · cases hidx : findIdxById opens o.id with
    | none =>
      rw [updateOrder_open_absent hterm hidx]
      exact ⟨hnd', hdisj'⟩
    | some i =>
      obtain ⟨l1, x, l2, hl, hlen, hx, hnl1⟩ := findIdxById_some_decomp hidx
      subst hl
      subst hlen
      rw [updateOrder_open_found hterm hidx]
      have hids : idsOf (l1 ++ o :: l2) = idsOf (l1 ++ x :: l2) := by
        rw [idsOf_append, idsOf_append, idsOf_cons, idsOf_cons, hx]
      constructor
      · show (idsOf (l1 ++ o :: l2)).Nodup
        rw [hids]; exact hnd'
      · intro n hn
        show n ∉ idsOf hist
        have hn' : n ∈ idsOf (l1 ++ o :: l2) := hn
        rw [hids] at hn'
        exact hdisj' n hn'

theorem tradingInv_addOrder {s : TradingState} (h : TradingInv s) {o : Order}
    (h1 : o.id ∉ idsOf s.openOrders) (h2 : o.id ∉ idsOf s.orderHistory) :
    TradingInv (addOrder s o) := by
  obtain ⟨opens, hist, load, err⟩ := s
  obtain ⟨hnd, hdisj⟩ := h
  unfold addOrder
  by_cases hst : o.status = "open" ∨ o.status = "partially_filled"
  · simp only [hst, if_true]
    constructor
    · show (idsOf (o :: opens)).Nodup
      rw [idsOf_cons, List.nodup_cons]
      exact ⟨h1, hnd⟩
    · intro n hn
      show n ∉ idsOf hist
      have hn' : n ∈ idsOf (o :: opens) := hn
      rw [idsOf_cons] at hn'
      rcases List.mem_cons.mp hn' with hc | hc
      · exact hc ▸ h2
      · exact hdisj n hc
  · simp only [hst, if_false]
    exact ⟨hnd, hdisj⟩

theorem tradingInv_statesOf {ops : List TradingOp} :
    ∀ {s : TradingState}, TradingInv s → FreshRun s ops →
      ∀ st ∈ statesOf s ops, TradingInv st := by
  induction ops with
  | nil =>
    intro s hs _ st hst
    simp only [statesOf, List.mem_singleton] at hst
    exact hst ▸ hs
  | cons op ops ih =>
    intro s hs hfr st hst
    simp only [statesOf, List.mem_cons] at hst
    rcases hst with rfl | hst
    · exact hs
    · cases hfr with
      | add _ o _ h1 h2 h => exact ih (tradingInv_addOrder hs h1 h2) h st hst
      | update _ o _ h => exact ih (tradingInv_updateOrder hs o) h st hst

theorem updateOrder_filled_removes {s : TradingState} (h : TradingInv s) {o : Order}
    (hf : o.status = "filled") :
    o.id ∉ idsOf (updateOrder s o).openOrders ∧
    (updateOrder s o).orderHistory.head? = some o := by
  obtain ⟨opens, hist, load, err⟩ := s
  obtain ⟨hnd, hdisj⟩ := h
  have hnd' : (idsOf opens).Nodup := hnd
  have hterm : o.status = "cancelled" ∨ o.status = "filled" := Or.inr hf
  cases hidx : findIdxById opens o.id with
  | none =>
    rw [updateOrder_terminal_absent hterm hidx]
    exact ⟨findIdxById_eq_none.mp hidx, rfl⟩
  | some i =>
    obtain ⟨l1, x, l2, hl, hlen, hx, hnl1⟩ := findIdxById_some_decomp hidx
    subst hl
    subst hlen
    rw [updateOrder_terminal_found hterm hidx]
    refine ⟨?_, rfl⟩
    show o.id ∉ idsOf (l1 ++ l2)
    rw [idsOf_append, idsOf_cons] at hnd'
    obtain ⟨nd1, nd2c, ndisj⟩ := List.nodup_append.mp hnd'
    obtain ⟨hx2, nd2⟩ := List.nodup_cons.mp nd2c
    rw [idsOf_append]
    simp only [List.mem_append, not_or]
    exact ⟨hnl1, fun hc => hx2 (hx ▸ hc)⟩

/-- C3 (counterexample): the claim quantifies over *all* sequences of
`recordNewOrder`/`applyOrderEvent` calls, but a terminal event followed by
`addOrder` for the same id leaves id 7 in both containers at once. -/
theorem updateOrder_addOrder_breaks_exclusivity :
    ¬ exclusive (runOps initialTradingState
        [TradingOp.update (ord 7 "filled"), TradingOp.add (ord 7 "open")]) :=
  fun h => h 7 ⟨by decide, by decide⟩

/-- C3 (amended): along every run in which each `recordNewOrder` uses an id
fresh to both containers, every intermediate state keeps each order id in at
most one of {open-orders, history}; and from any state satisfying the
container invariant, a transition to status `filled` removes the id from
open-orders and the freshly prepended history entry carries the same id. -/
theorem order_exclusivity :
    (∀ ops : List TradingOp, FreshRun initialTradingState ops →
       ∀ st ∈ statesOf initialTradingState ops, exclusive st) ∧
    (∀ (s : TradingState) (o : Order), TradingInv s → o.status = "filled" →
       o.id ∉ idsOf (updateOrder s o).openOrders ∧
         (updateOrder s o).orderHistory.head? = some o) := by
  constructor
  · intro ops hfr st hst
    exact (tradingInv_statesOf tradingInv_initial hfr st hst).excl
  · intro s o hs hf
    exact updateOrder_filled_removes hs hf

/-- C3 (witness): the scenario of §8 — record order 7 open, stream a filled
update — run through the theorem at concrete inputs. -/
theorem order_exclusivity_witness :
    exclusive (runOps initialTradingState
      [TradingOp.add (ord 7 "open"), TradingOp.update (ord 7 "filled")]) ∧
    (ord 7 "filled").id ∉ idsOf
      (updateOrder (addOrder initialTradingState (ord 7 "open")) (ord 7 "filled")).openOrders := by
  constructor
  · exact order_exclusivity.1
      [TradingOp.add (ord 7 "open"), TradingOp.update (ord 7 "filled")]
      (FreshRun.add _ _ _ (by decide) (by decide)
        (FreshRun.update _ _ _ (FreshRun.nil _)))
      _ (by decide)
  · exact (order_exclusivity.2 (addOrder initialTradingState (ord 7 "open"))
      (ord 7 "filled") (by constructor <;> decide) rfl).1

/-- C4 (counterexample): after a successful cancel has removed order 7 from
open-orders, applying the streamed terminal event twice leaves two history
entries with id 7 — history is not deduplicated by order id. -/
theorem duplicate_history_after_replay :
    ((idsOf (updateOrder (updateOrder
        (cancelOrderFulfilled (addOrder initialTradingState (ord 7 "open"))
          (ord 7 "cancelled"))
        (ord 7 "cancelled")) (ord 7 "cancelled")).orderHistory).count 7) = 2 := by
  decide

/-- C4 (amended): once the id is absent from open-orders (as after
`cancelOrder.fulfilled`), one application of the streamed terminal event
only prepends that event to history and leaves open-orders untouched; the
event is not idempotent — a second application prepends a duplicate entry.
`cancelOrder.fulfilled` itself removes every open order with the payload's
id. -/
theorem terminal_event_after_cancel {s : TradingState} {o : Order}
    (hno : o.id ∉ idsOf s.openOrders)
    (hterm : o.status = "cancelled" ∨ o.status = "filled") :
    updateOrder s o = { s with orderHistory := o :: s.orderHistory } ∧
    (updateOrder (updateOrder s o) o).orderHistory = o :: o :: s.orderHistory ∧
    ∀ (p : Order) (x : Order), x ∈ (cancelOrderFulfilled s p).openOrders → x.id ≠ p.id := by
  obtain ⟨opens, hist, load, err⟩ := s
  have hidx : findIdxById opens o.id = none := findIdxById_eq_none.mpr hno
  have h1 := @updateOrder_terminal_absent opens hist load err o hterm hidx
  refine ⟨h1, ?_, ?_⟩
  · rw [h1]
    rw [updateOrder_terminal_absent hterm hidx]
  · intro p x hx
    have := List.of_mem_filter hx
    simpa using this

/-- C4 (witness): the amended theorem run at the cancel-then-stream
scenario for order 7. -/
theorem terminal_event_after_cancel_witness :
    updateOrder (cancelOrderFulfilled (addOrder initialTradingState (ord 7 "open"))
        (ord 7 "cancelled")) (ord 7 "cancelled")
      = { cancelOrderFulfilled (addOrder initialTradingState (ord 7 "open"))
            (ord 7 "cancelled") with
          orderHistory := [ord 7 "cancelled"] } :=
  (terminal_event_after_cancel (by decide) (Or.inl rfl)).1

/-- C5 (counterexample): a non-terminal order event for an id that is not
in open-orders is discarded — the order is *not* inserted, contrary to the
claim's "otherwise inserts". -/
theorem unknown_open_order_not_inserted :
    updateOrder initialTradingState (ord 1 "open") = initialTradingState ∧
    (ord 1 "open") ∉ (updateOrder initialTradingState (ord 1 "open")).openOrders := by
  constructor <;> decide

/-- C5 (amended): for a non-terminal order event, `updateOrder` overwrites
the matching open-orders entry in place when one exists, and otherwise
leaves the state unchanged (the event is dropped, not inserted). -/
theorem nonterminal_update_in_place (s : TradingState) (o : Order)
    (h1 : o.status ≠ "cancelled") (h2 : o.status ≠ "filled") :
    (o.id ∉ idsOf s.openOrders → updateOrder s o = s) ∧
    (∀ l1 x l2, s.openOrders = l1 ++ x :: l2 → x.id = o.id → o.id ∉ idsOf l1 →
       updateOrder s o = { s with openOrders := l1 ++ o :: l2 }) := by
  obtain ⟨opens, hist, load, err⟩ := s
  have hterm : ¬(o.status = "cancelled" ∨ o.status = "filled") := by
    intro hc
    rcases hc with hc | hc
    · exact h1 hc
    · exact h2 hc
  constructor
  · intro hno
    exact updateOrder_open_absent hterm (findIdxById_eq_none.mpr hno)
  · intro l1 x l2 hl hx hnl1
    have hl' : opens = l1 ++ x :: l2 := hl
    subst hl'
    exact updateOrder_open_found hterm (findIdxById_append hx hnl1)

/-- C5 (witness): updating order 3 in place from `open` to
`partially_filled`. -/
theorem nonterminal_update_in_place_witness :
    updateOrder (addOrder initialTradingState (ord 3 "open")) (ord 3 "partially_filled")
      = { addOrder initialTradingState (ord 3 "open") with
          openOrders := [ord 3 "partially_filled"] } :=
  (nonterminal_update_in_place _ _ (by decide) (by decide)).2
    [] (ord 3 "open") [] rfl rfl (by decide)

/-! ### Helper lemmas about the subscription registry -/

theorem mem_setAdd_self (l : List String) (k : String) : k ∈ setAdd l k := by
  unfold setAdd
  by_cases h : k ∈ l <;> simp [h]

theorem mem_setAdd_of_mem {l : List String} {k : String} (h : k ∈ l) (k' : String) :
    k ∈ setAdd l k' := by
  unfold setAdd
  by_cases hc : k' ∈ l <;> simp [hc, h]

theorem mem_foldl_setAdd_of_mem {k : String} (cs : List Channel) :
    ∀ {l : List String}, k ∈ l →
      k ∈ cs.foldl (fun acc c => setAdd acc (channelKey c)) l := by
  induction cs with
  | nil => intro l h; exact h
  | cons c cs ih => intro l h; exact ih (mem_setAdd_of_mem h (channelKey c))

theorem subscribe_fold_mem {c : Channel} (cs : List Channel) (hc : c ∈ cs) :
    ∀ l : List String,
      channelKey c ∈ cs.foldl (fun acc c => setAdd acc (channelKey c)) l := by
  induction cs with
  | nil => cases hc
  | cons d ds ih =>
    intro l
    rcases List.mem_cons.mp hc with rfl | hmem
    · exact mem_foldl_setAdd_of_mem ds (mem_setAdd_self l (channelKey c))
    · exact ih hmem (setAdd l (channelKey d))

theorem foldl_erase_sublist (cs : List Channel) :
    ∀ l : List String,
      (cs.foldl (fun acc c => acc.erase (channelKey c)) l).Sublist l := by
  induction cs with
  | nil => intro l; exact List.Sublist.refl l
  | cons d ds ih =>
    intro l
    exact (ih (l.erase (channelKey d))).trans (List.erase_sublist _ _)

theorem not_mem_foldl_erase {c : Channel} (cs : List Channel) (hc : c ∈ cs) :
    ∀ l : List String, l.Nodup →
      channelKey c ∉ cs.foldl (fun acc c => acc.erase (channelKey c)) l := by
  induction cs with
  | nil => cases hc
  | cons d ds ih =>
    intro l hnd
    rcases List.mem_cons.mp hc with rfl | hmem
    · intro hin
      have hsub := (foldl_erase_sublist ds (l.erase (channelKey c))).subset hin
      exact hnd.not_mem_erase hsub
    · exact ih hmem (l.erase (channelKey d)) (hnd.erase _)

/-- C1: the reconnect replay evaluated at the spec's own example
{ticker:BTC_USDT, orderbook:BTC_USDT}. The registry encodes the key as
`type_symbol` but decodes it with `split('_')`, so the replayed subscribe
message carries symbol "BTC" — the "_USDT" suffix is lost and the
round-trip is not exact. -/
theorem resubscribe_mangles_underscore_symbols :
    (onConnect (onDisconnect ((subscribe (wsState (some true) [])
        [chan "ticker" "BTC_USDT", chan "orderbook" "BTC_USDT"]).1)) (some "tok")).2
      = [OutMsg.authenticate "tok",
         OutMsg.subscribeMsg [chan "ticker" "BTC", chan "orderbook" "BTC"]] ∧
    splitKey (channelKey (chan "ticker" "BTC_USDT")) ≠ chan "ticker" "BTC_USDT" := by
  constructor <;> decide

/-- C2 (counterexample): with no socket object, `subscribe` does not add
the topic to the registry and `unsubscribe` does not remove it (both are
complete no-ops), while with a disconnected socket object `subscribe`
still emits the protocol message — contradicting the claim that offline
calls update the set and send nothing. -/
theorem offline_registry_counterexample :
    (subscribe (wsState none []) [chan "ticker" "BTC_USDT"]).1.subscribedChannels = [] ∧
    (unsubscribe (wsState none ["ticker_BTC_USDT"])
        [chan "ticker" "BTC_USDT"]).1.subscribedChannels = ["ticker_BTC_USDT"] ∧
    (subscribe (wsState (some false) []) [chan "ticker" "BTC_USDT"]).2
      = [OutMsg.subscribeMsg [chan "ticker" "BTC_USDT"]] := by
  refine ⟨?_, ?_, ?_⟩ <;> decide

/-- C2 (amended): `subscribe`/`unsubscribe` are complete no-ops (registry
untouched, nothing sent) when no socket object exists; whenever a socket
object exists — connected or not — the registry is updated (keys of the
given channels added resp. removed) and the protocol message is emitted
unconditionally. -/
theorem registry_update_offline (st : WSState) (cs : List Channel)
    (hnd : st.subscribedChannels.Nodup) :
    (st.socketConnected = none →
       subscribe st cs = (st, []) ∧ unsubscribe st cs = (st, [])) ∧
    (∀ b, st.socketConnected = some b →
       ((∀ c ∈ cs, channelKey c ∈ (subscribe st cs).1.subscribedChannels) ∧
          (subscribe st cs).2 = [OutMsg.subscribeMsg cs]) ∧
       ((∀ c ∈ cs, channelKey c ∉ (unsubscribe st cs).1.subscribedChannels) ∧
          (unsubscribe st cs).2 = [OutMsg.unsubscribeMsg cs])) := by
  obtain ⟨sc, subs, ra⟩ := st
  constructor
  · intro hsc
    have hsc' : sc = none := hsc
    subst hsc'
    exact ⟨rfl, rfl⟩
  · intro b hsc
    have hsc' : sc = some b := hsc
    subst hsc'
    refine ⟨⟨fun c hc => ?_, rfl⟩, ⟨fun c hc => ?_, rfl⟩⟩
    · exact subscribe_fold_mem cs hc subs
    · exact not_mem_foldl_erase cs hc subs hnd

/-- C2 (witness): the amended theorem at a concrete offline state and a
concrete socket-bearing state. -/
theorem registry_update_offline_witness :
    (subscribe (wsState none ["ticker_BTC_USDT"]) [chan "trades" "BTC_USDT"]
      = (wsState none ["ticker_BTC_USDT"], [])) ∧
    channelKey (chan "trades" "BTC_USDT") ∈
      (subscribe (wsState (some true) ["ticker_BTC_USDT"])
        [chan "trades" "BTC_USDT"]).1.subscribedChannels := by
  constructor
  · exact ((registry_update_offline (wsState none ["ticker_BTC_USDT"])
      [chan "trades" "BTC_USDT"] (by decide)).1 rfl).1
  · exact (((registry_update_offline (wsState (some true) ["ticker_BTC_USDT"])
      [chan "trades" "BTC_USDT"] (by decide)).2 true rfl).1).1
      _ (List.mem_singleton.mpr rfl)

/-- C10: protocol messages are not deduplicated against the registry —
re-subscribing an already-registered channel leaves the set unchanged but
still emits a `subscribe` message, and unsubscribing an absent channel
still emits an `unsubscribe` message. -/
theorem no_protocol_dedup (st : WSState) (b : Bool) (c c' : Channel)
    (hs : st.socketConnected = some b)
    (hmem : channelKey c ∈ st.subscribedChannels)
    (hnot : channelKey c' ∉ st.subscribedChannels) :
    ((subscribe st [c]).1.subscribedChannels = st.subscribedChannels ∧
       (subscribe st [c]).2 = [OutMsg.subscribeMsg [c]]) ∧
    ((unsubscribe st [c']).1.subscribedChannels = st.subscribedChannels ∧
       (unsubscribe st [c']).2 = [OutMsg.unsubscribeMsg [c']]) := by
  obtain ⟨sc, subs, ra⟩ := st
  have hs' : sc = some b := hs
  subst hs'
  have hmem' : channelKey c ∈ subs := hmem
  have hnot' : channelKey c' ∉ subs := hnot
  refine ⟨⟨?_, rfl⟩, ⟨?_, rfl⟩⟩
  · show setAdd subs (channelKey c) = subs
    unfold setAdd
    simp [hmem']
  · show subs.erase (channelKey c') = subs
    exact List.erase_of_not_mem hnot'

/-- C10 (witness): re-subscribing ticker:BTC_USDT on a state that already
holds it, and unsubscribing the absent trades:BTC_USDT. -/
theorem no_protocol_dedup_witness :
    ((subscribe (wsState (some true) ["ticker_BTC_USDT"])
        [chan "ticker" "BTC_USDT"]).1.subscribedChannels = ["ticker_BTC_USDT"]) ∧
    ((unsubscribe (wsState (some true) ["ticker_BTC_USDT"])
        [chan "trades" "BTC_USDT"]).2
      = [OutMsg.unsubscribeMsg [chan "trades" "BTC_USDT"]]) := by
  have h := no_protocol_dedup (wsState (some true) ["ticker_BTC_USDT"])
    true (chan "ticker" "BTC_USDT") (chan "trades" "BTC_USDT")
    rfl (by decide) (by decide)
  exact ⟨h.1.1, h.2.2⟩


set_option maxRecDepth 40000 in
/-- C6: feeding 150 sequential trade events into the empty tape leaves
exactly 100 entries, newest first; the 100th retained entry is the 51st
event fed, so the oldest 50 were evicted. -/
theorem trade_tape_150_events :
    ((List.range 150).foldl (fun s k => addRecentTrade s (mkTrade (k + 1)))
        initialMarketState).recentTrades.length = 100 ∧
    ((List.range 150).foldl (fun s k => addRecentTrade s (mkTrade (k + 1)))
        initialMarketState).recentTrades.getLast? = some (mkTrade 51) ∧
    ((List.range 150).foldl (fun s k => addRecentTrade s (mkTrade (k + 1)))
        initialMarketState).recentTrades
      = (List.range 100).map (fun i => mkTrade (150 - i)) := by
  refine ⟨?_, ?_, ?_⟩ <;> decide

set_option maxRecDepth 4000 in
/-- C7 (counterexample): the REST `fetchRecentTrades.fulfilled` handler
replaces the tape with the fetched list verbatim, so a fetched list of 101
trades leaves 101 entries — the 100-entry cap is not enforced on that
path. -/
theorem rest_fetch_exceeds_cap :
    (fetchRecentTradesFulfilled initialMarketState
        ((List.range 101).map mkTrade)).recentTrades.length = 101 := by
  decide

/-- C7 (amended): each streamed-trade prepend preserves the 100-entry cap
(and puts the new trade at the head), while the historical REST fetch sets
the tape to exactly the fetched list — the cap therefore holds after a
fetch only when the fetched list itself has at most 100 entries. -/
theorem trade_tape_cap (s : MarketState) (t : RecentTrade) (ts : List RecentTrade)
    (h : s.recentTrades.length ≤ 100) :
    (addRecentTrade s t).recentTrades.length ≤ 100 ∧
    (addRecentTrade s t).recentTrades.head? = some t ∧
    (fetchRecentTradesFulfilled s ts).recentTrades = ts := by
  refine ⟨?_, ?_, rfl⟩
  · unfold addRecentTrade
    by_cases hlen : (t :: s.recentTrades).length > 100
    · simp only [hlen, if_true]
      show (t :: s.recentTrades).dropLast.length ≤ 100
      rw [List.length_dropLast]
      simp only [List.length_cons]
      omega
    · simp only [hlen, if_false]
      show (t :: s.recentTrades).length ≤ 100
      omega
  · unfold addRecentTrade
    by_cases hlen : (t :: s.recentTrades).length > 100
    · simp only [hlen, if_true]
      show (t :: s.recentTrades).dropLast.head? = some t
      cases hrt : s.recentTrades with
      | nil => rw [hrt] at hlen; simp at hlen
      | cons a as => simp
    · simp only [hlen, if_false]
      rfl

/-- C7 (witness): the cap preserved by a prepend to the empty tape, and a
one-element REST fetch. -/
theorem trade_tape_cap_witness :
    (addRecentTrade initialMarketState (mkTrade 1)).recentTrades.length ≤ 100 ∧
    (addRecentTrade initialMarketState (mkTrade 1)).recentTrades.head? = some (mkTrade 1) ∧
    (fetchRecentTradesFulfilled initialMarketState [mkTrade 1]).recentTrades = [mkTrade 1] :=
  trade_tape_cap initialMarketState (mkTrade 1) [mkTrade 1] (by decide)

/-- C8: ticker updates are last-write-wins — after events E1 then E2 for
the same symbol the map holds exactly E2's record under that symbol (no
merge of E1 fields), and every other symbol is untouched. -/
theorem ticker_last_write_wins (s : MarketState) (E1 E2 : Ticker)
    (h : E1.symbol = E2.symbol) :
    (updateTicker (updateTicker s E1) E2).tickers E2.symbol = some E2 ∧
    (∀ sym, sym ≠ E2.symbol →
       (updateTicker (updateTicker s E1) E2).tickers sym = s.tickers sym) := by
  constructor
  · simp [updateTicker]
  · intro sym hsym
    have hsym1 : sym ≠ E1.symbol := fun hc => hsym (hc.trans h)
    simp [updateTicker, hsym, hsym1]

/-- C8 (witness): two BTC_USDT ticker events applied to the empty store;
the second fully replaces the first and ETH_USDT stays absent. -/
theorem ticker_last_write_wins_witness :
    (updateTicker (updateTicker initialMarketState (tick "BTC_USDT" "100"))
        (tick "BTC_USDT" "200")).tickers "BTC_USDT" = some (tick "BTC_USDT" "200") ∧
    (updateTicker (updateTicker initialMarketState (tick "BTC_USDT" "100"))
        (tick "BTC_USDT" "200")).tickers "ETH_USDT"
      = initialMarketState.tickers "ETH_USDT" := by
  have h := ticker_last_write_wins initialMarketState
    (tick "BTC_USDT" "100") (tick "BTC_USDT" "200") rfl
  exact ⟨h.1, h.2 "ETH_USDT" (by decide)⟩

/-- C9: error atomicity of the REST layer — every `rejected` thunk action
of the order-book, recent-trades, tickers and trading-pairs fetches and of
order creation/cancellation has no registered reducer case, so the store
state is returned unchanged. -/
theorem rest_failure_leaves_state (ms : MarketState) (ts : TradingState)
    (e : Option String) :
    marketReducer ms (MarketAction.fetchOrderBookRejected e) = ms ∧
    marketReducer ms (MarketAction.fetchRecentTradesRejected e) = ms ∧
    marketReducer ms (MarketAction.fetchTickersRejected e) = ms ∧
    marketReducer ms (MarketAction.fetchTradingPairsRejected e) = ms ∧
    tradingReducer ts (TradingAction.createOrderRejected e) = ts ∧
    tradingReducer ts (TradingAction.cancelOrderRejected e) = ts :=
  ⟨rfl, rfl, rfl, rfl, rfl, rfl⟩

end CryptoTrade
